import Mathlib

/-!
Verification development for the agent execution engine of the cc-chat
repository: the streaming message parser (`src/core/message-parser.ts` and the
event-emitter variant in `src/core/process-manager.ts`), the process registry
with its per-session locks and FIFO queues (`src/core/process-manager.ts`),
and the runner (`src/core/claude-runner.ts`).

The embedding works at the level of the newline-delimited JSON protocol:

* `Json` and `parseStep`/`jsonParse` model JavaScript's `JSON.parse` on a
  single line of text (characters are modelled as Lean `Char`, i.e. UTF-16
  code points of the JS string).
* `validateClaudeMessage` models the zod schema union
  `ClaudeMessageSchema.safeParse` from `src/types/claude.ts`, with
  `.passthrough()` modelled by ignoring unknown fields.
* `dispatch` models `MessageParser.dispatch`, and `processLineOut` the
  per-line pipeline `processLine` of the event-emitter parser variant
  (JSON decode, schema validation with a diagnostic on mismatch, dispatch).
* `splitLinesAux`/`feedLines`/`runChunks`/`streamLines` model the
  line-buffering of `MessageParser.feed`/`MessageParser.flush`.
* `PMState` with `pmStart`/`pmStop`/`pmEnqueue`/`pmDequeue` models the
  `ProcessManager` registry, kill log and per-id message queues.
* `buildArgs` and `deriveRunResult` model the argument construction and
  result derivation of `runClaude`.
-/

/-- JSON values as produced by `JSON.parse`.  Numbers are stored exactly as
mantissa and decimal exponent (`mant * 10 ^ exp`); object fields keep their
source order, later duplicates shadowing earlier ones on lookup as in
JavaScript. -/
inductive Json where
  | null : Json
  | bool (b : Bool) : Json
  | num (mant : Int) (exp : Int) : Json
  | str (s : String) : Json
  | arr (elems : List Json) : Json
  | obj (fields : List (String × Json)) : Json

/-- JSON whitespace accepted by `JSON.parse` between tokens. -/
def isJsonWs (c : Char) : Bool :=
  c = ' ' || c = '\n' || c = '\t' || c = '\r'

/-- Drop leading JSON whitespace. -/
def skipWs : List Char → List Char
  | [] => []
  | c :: rest => if isJsonWs c then skipWs rest else c :: rest

/-- Decimal digit test. -/
def isDigitCh (c : Char) : Bool := '0' ≤ c && c ≤ '9'

/-- Value of one hexadecimal digit, if the character is one. -/
def hexDigitValue (c : Char) : Option Nat :=
  if isDigitCh c then some (c.toNat - 48)
  else if 'a' ≤ c ∧ c ≤ 'f' then some (c.toNat - 97 + 10)
  else if 'A' ≤ c ∧ c ≤ 'F' then some (c.toNat - 65 + 10)
  else none

/-- The control character a single-letter JSON escape denotes, if the letter
is a recognized escape. -/
def escCharOf (e : Char) : Option Char :=
  match e with
  | 'n' => some '\n'
  | 't' => some '\t'
  | 'r' => some '\r'
  | '"' => some '"'
  | '/' => some '/'
  | '\\' => some '\\'
  | 'b' => some (Char.ofNat 0x08)
  | 'f' => some (Char.ofNat 0x0c)
  | _ => none

/-- Decode a `\uXXXX` escape from its four hexadecimal digits. -/
def hexQuadVal (h1 h2 h3 h4 : Char) : Option Char :=
  match hexDigitValue h1, hexDigitValue h2 with
  | some v1, some v2 =>
    match hexDigitValue h3, hexDigitValue h4 with
    | some v3, some v4 => some (Char.ofNat (v1 * 4096 + v2 * 256 + v3 * 16 + v4))
    | _, _ => none
  | _, _ => none

/-- Body of a JSON string literal (after the opening quote): returns the
decoded characters and the remaining input after the closing quote.  The
single-character escapes and `\uXXXX` escapes of JSON are handled;
unescaped control characters are rejected as in `JSON.parse`. -/
def stringBody : List Char → Option (List Char × List Char)
  | [] => none
  | q :: more =>
    if q = '"' then some ([], more)
    else if q = '\\' then
      match more with
      | [] => none
      | 'u' :: h1 :: h2 :: h3 :: h4 :: more2 =>
        match hexQuadVal h1 h2 h3 h4 with
        | some ch => (stringBody more2).map fun p => (ch :: p.1, p.2)
        | none => none
      | e :: more2 =>
        match escCharOf e with
        | some ch => (stringBody more2).map fun p => (ch :: p.1, p.2)
        | none => none
    else if q.toNat < 32 then none
    else (stringBody more).map fun p => (q :: p.1, p.2)

/-- Take a maximal run of decimal digits. -/
def takeDigits : List Char → List Char × List Char
  | [] => ([], [])
  | c :: rest =>
    if isDigitCh c then
      let p := takeDigits rest
      (c :: p.1, p.2)
    else ([], c :: rest)

/-- Digits to a natural number, most significant first. -/
def digitsToNat (ds : List Char) : Nat :=
  ds.foldl (fun acc c => acc * 10 + (c.toNat - '0'.toNat)) 0

/-- Optional exponent part of a JSON number: returns the exponent value and
the remaining input, or `none` on a malformed exponent. -/
def parseExponent : List Char → Option (Int × List Char)
  | [] => some (0, [])
  | c :: rest =>
    if c = 'e' ∨ c = 'E' then
      let (esign, rest2) : Bool × List Char :=
        match rest with
        | '-' :: r => (true, r)
        | '+' :: r => (false, r)
        | _ => (false, rest)
      let p := takeDigits rest2
      match p.1 with
      | [] => none
      | _ =>
        let e : Int := Int.ofNat (digitsToNat p.1)
        some (if esign then -e else e, p.2)
    else some (0, c :: rest)

/-- Assemble a JSON number from its sign, integer digits, fraction digits and
the input remaining after the fraction. -/
def numberTail (neg : Bool) (intDigits fracDigits : List Char) (cs2 : List Char) :
    Option (Json × List Char) :=
  match parseExponent cs2 with
  | none => none
  | some (e, cs3) =>
    let mantNat := digitsToNat (intDigits ++ fracDigits)
    let mant : Int := if neg then -(Int.ofNat mantNat) else Int.ofNat mantNat
    some (Json.num mant (e - Int.ofNat fracDigits.length), cs3)

/-- Parse a JSON number per the JSON grammar: optional minus sign, integer
part without leading zeros, optional fraction, optional exponent. -/
def parseNumber (cs : List Char) : Option (Json × List Char) :=
  let (neg, cs1) : Bool × List Char :=
    match cs with
    | '-' :: rest => (true, rest)
    | _ => (false, cs)
  let intPart := takeDigits cs1
  match intPart.1 with
  | [] => none
  | d0 :: drest =>
    if d0 = '0' ∧ drest ≠ [] then none
    else
      match intPart.2 with
      | '.' :: rest =>
        let p := takeDigits rest
        if p.1 = [] then none
        else numberTail neg intPart.1 p.1 p.2
      | _ => numberTail neg intPart.1 [] intPart.2

/-- Mode of the fuel-indexed JSON parser: a plain value, the members of an
object already opened with at least one pending member, or the elements of an
array already opened with at least one pending element. -/
inductive PMode where
  | val : PMode
  | members (acc : List (String × Json)) : PMode
  | elems (acc : List Json) : PMode

/-- Fuel-indexed recursive descent parser for JSON values, modelling
`JSON.parse` applied to one line.  Returns the parsed value and the rest of
the input. -/
def parseStep : Nat → PMode → List Char → Option (Json × List Char)
  | 0, _, _ => none
  | Nat.succ fuel, PMode.val, cs =>
    match skipWs cs with
    | [] => none
    | '{' :: rest =>
      (match skipWs rest with
       | '}' :: r2 => some (Json.obj [], r2)
       | cs2 => parseStep fuel (PMode.members []) cs2)
    | '[' :: rest =>
      (match skipWs rest with
       | ']' :: r2 => some (Json.arr [], r2)
       | cs2 => parseStep fuel (PMode.elems []) cs2)
    | '"' :: rest =>
      (stringBody rest).map fun p => (Json.str (String.mk p.1), p.2)
    | 't' :: 'r' :: 'u' :: 'e' :: rest => some (Json.bool true, rest)
    | 'f' :: 'a' :: 'l' :: 's' :: 'e' :: rest => some (Json.bool false, rest)
    | 'n' :: 'u' :: 'l' :: 'l' :: rest => some (Json.null, rest)
    | cs2 => parseNumber cs2
  | Nat.succ fuel, PMode.members acc, cs =>
    (match skipWs cs with
     | '"' :: rest =>
       match stringBody rest with
       | none => none
       | some (key, r2) =>
         match skipWs r2 with
         | ':' :: r3 =>
           (match parseStep fuel PMode.val r3 with
            | none => none
            | some (v, r4) =>
              match skipWs r4 with
              | ',' :: r5 => parseStep fuel (PMode.members (acc ++ [(String.mk key, v)])) r5
              | '}' :: r5 => some (Json.obj (acc ++ [(String.mk key, v)]), r5)
              | _ => none)
         | _ => none
     | _ => none)
  | Nat.succ fuel, PMode.elems acc, cs =>
    match parseStep fuel PMode.val cs with
    | none => none
    | some (v, r) =>
      match skipWs r with
      | ',' :: r2 => parseStep fuel (PMode.elems (acc ++ [v])) r2
      | ']' :: r2 => some (Json.arr (acc ++ [v]), r2)
      | _ => none

/-- `JSON.parse` on one line: parse one value and require only whitespace
after it; `none` models a thrown `SyntaxError`. -/
def jsonParse (cs : List Char) : Option Json :=
  match parseStep (cs.length * 2 + 8) PMode.val cs with
  | some (j, rest) => if skipWs rest = [] then some j else none
  | none => none

/-- Field lookup on a parsed JSON object: as in JavaScript, a later duplicate
key shadows an earlier one. -/
def getField (fields : List (String × Json)) (k : String) : Option Json :=
  fields.foldl (fun acc p => if p.1 = k then some p.2 else acc) none

/-- View a JSON value as a string (`z.string()`). -/
def asStr : Json → Option String
  | Json.str s => some s
  | _ => none

/-- View a JSON value as a boolean (`z.boolean()`). -/
def asBool : Json → Option Bool
  | Json.bool b => some b
  | _ => none

/-- A JSON number as stored by the model: mantissa and decimal exponent. -/
structure JNumber where
  mant : Int
  exp : Int
deriving DecidableEq

/-- View a JSON value as a number (`z.number()`). -/
def asNum : Json → Option JNumber
  | Json.num m e => some ⟨m, e⟩
  | _ => none

/-- View a JSON value as an object, i.e. a field list
(`z.record(z.string(), z.unknown())` and `z.object`). -/
def asObj : Json → Option (List (String × Json))
  | Json.obj fs => some fs
  | _ => none

/-- View a JSON value as an array (`z.array`). -/
def asArr : Json → Option (List Json)
  | Json.arr es => some es
  | _ => none

/-- Required field of type `α`: present and well-typed. -/
def reqField (fields : List (String × Json)) (k : String) (view : Json → Option α) :
    Option α :=
  getField fields k >>= view

/-- Optional field (`.optional()`): absent is fine, present must be
well-typed (JSON has no `undefined`, so a present ill-typed value fails). -/
def optField (fields : List (String × Json)) (k : String) (view : Json → Option α) :
    Option (Option α) :=
  match getField fields k with
  | none => some none
  | some v => (view v).map some

/-- Nullish field (`.nullish()`): absent or `null` give `none`, a present
non-null value must be well-typed. -/
def nullishField (fields : List (String × Json)) (k : String) (view : Json → Option α) :
    Option (Option α) :=
  match getField fields k with
  | none => some none
  | some Json.null => some none
  | some v => (view v).map some

/-- Validate every element of a list, failing if any fails. -/
def validateList (view : Json → Option α) : List Json → Option (List α)
  | [] => some []
  | j :: rest =>
    match view j, validateList view rest with
    | some a, some as' => some (a :: as')
    | _, _ => none

/-- A content item of an assistant/user message body, after validation
against `ContentSchema` (`src/types/claude.ts`): a discriminated union of
text, tool-use and tool-result blocks. -/
inductive Content where
  | text (text : String) : Content
  | toolUse (id name : String) (input : List (String × Json)) : Content
  | toolResult (toolUseId : String) (content : String) (isError : Option Bool) : Content

/-- Validation of one content item against `ContentSchema`
(discriminated union on `type` over text, tool_use, tool_result). -/
def validateContent (j : Json) : Option Content :=
  match asObj j with
  | none => none
  | some fs =>
    match getField fs "type" with
    | some (Json.str t) =>
      if t = "text" then
        (reqField fs "text" asStr).map Content.text
      else if t = "tool_use" then
        match reqField fs "id" asStr, reqField fs "name" asStr,
              reqField fs "input" asObj with
        | some i, some n, some inp => some (Content.toolUse i n inp)
        | _, _, _ => none
      else if t = "tool_result" then
        match reqField fs "tool_use_id" asStr, reqField fs "content" asStr,
              optField fs "is_error" asBool with
        | some tid, some c, some ie => some (Content.toolResult tid c ie)
        | _, _, _ => none
      else none
    | _ => none

/-- Validation against `UsageSchema`: required input/output token counts,
optional cache counts and service tier.  The data is not used downstream, so
only well-formedness is checked. -/
def validateUsage (j : Json) : Option Unit :=
  match asObj j with
  | none => none
  | some fs =>
    match reqField fs "input_tokens" asNum, reqField fs "output_tokens" asNum,
          optField fs "cache_creation_input_tokens" asNum,
          optField fs "cache_read_input_tokens" asNum,
          optField fs "service_tier" asStr with
    | some _, some _, some _, some _, some _ => some ()
    | _, _, _, _, _ => none

/-- Validation against `ContentBlockSchema`: the `message` body of assistant
and user messages.  Returns the validated content array. -/
def validateContentBlock (j : Json) : Option (List Content) :=
  match asObj j with
  | none => none
  | some fs =>
    match getField fs "type" with
    | some (Json.str "message") =>
      match reqField fs "id" asStr, reqField fs "role" asStr,
            optField fs "model" asStr with
      | some _, some role, some _ =>
        if role = "assistant" ∨ role = "user" then
          match reqField fs "content" asArr with
          | none => none
          | some items =>
            match validateList validateContent items,
                  nullishField fs "stop_reason" asStr,
                  nullishField fs "stop_sequence" asStr,
                  optField fs "usage" validateUsage with
            | some content, some _, some _, some _ => some content
            | _, _, _, _ => none
        else none
      | _, _, _ => none
    | _ => none

/-- Validation against `McpServerSchema`: name and status strings. -/
def validateMcpServer (j : Json) : Option (String × String) :=
  match asObj j with
  | none => none
  | some fs =>
    match reqField fs "name" asStr, reqField fs "status" asStr with
    | some n, some s => some (n, s)
    | _, _ => none

/-- The four terminal statuses of `ResultMessageSchema.subtype`. -/
inductive RSubtype where
  | success : RSubtype
  | error : RSubtype
  | errorMaxTurns : RSubtype
  | interrupted : RSubtype
deriving DecidableEq

/-- Decode the `subtype` enum of a result message. -/
def rSubtypeOf (s : String) : Option RSubtype :=
  if s = "success" then some RSubtype.success
  else if s = "error" then some RSubtype.error
  else if s = "error_max_turns" then some RSubtype.errorMaxTurns
  else if s = "interrupted" then some RSubtype.interrupted
  else none

/-- A validated `result` message (`ResultMessageSchema`), carrying the fields
the runner consumes. -/
structure ResultMsg where
  subtype : RSubtype
  sessionId : String
  result : Option String
  isError : Option Bool
  totalCostUsd : Option JNumber
  durationMs : Option JNumber
deriving DecidableEq

/-- Validation against `ResultUsageSchema` (all fields optional numbers). -/
def validateResultUsage (j : Json) : Option Unit :=
  match asObj j with
  | none => none
  | some fs =>
    match optField fs "input_tokens" asNum, optField fs "output_tokens" asNum,
          optField fs "cache_creation_input_tokens" asNum,
          optField fs "cache_read_input_tokens" asNum with
    | some _, some _, some _, some _ => some ()
    | _, _, _, _ => none

/-- Validation against `ModelUsageEntrySchema` (all fields optional). -/
def validateModelUsageEntry (j : Json) : Option Unit :=
  match asObj j with
  | none => none
  | some fs =>
    match optField fs "inputTokens" asNum, optField fs "outputTokens" asNum,
          optField fs "cacheReadInputTokens" asNum,
          optField fs "cacheCreationInputTokens" asNum,
          optField fs "costUSD" asNum with
    | some _, some _, some _, some _, some _ => some ()
    | _, _, _, _, _ => none

/-- Validation of the optional `modelUsage` record: every value must be a
valid `ModelUsageEntrySchema` object. -/
def validateModelUsage (j : Json) : Option Unit :=
  match asObj j with
  | none => none
  | some fs =>
    match validateList validateModelUsageEntry (fs.map Prod.snd) with
    | some _ => some ()
    | none => none

/-- A message validated by `ClaudeMessageSchema` (`parseClaudeMessage`),
carrying the data the dispatcher consumes.  The union is discriminated on the
`type` field: `system` (init only), `assistant`, `user`, the legacy flat
`tool_use` / `tool_result` shapes, and `result`. -/
inductive CMsg where
  | systemInit (sessionId : String) (tools : List String) : CMsg
  | assistant (content : List Content) (sessionId : String) : CMsg
  | user (content : List Content) (sessionId : String) : CMsg
  | toolUseFlat (toolName : String) (toolInput : List (String × Json))
      (sessionId : String) : CMsg
  | toolResultFlat (toolName toolResult : String) (isError : Bool)
      (sessionId : String) : CMsg
  | result (r : ResultMsg) : CMsg

/-- Validation against `SystemInitMessageSchema`: the union only accepts
`system` messages whose `subtype` is the literal `init`. -/
def validateSystemInit (fs : List (String × Json)) : Option CMsg :=
  match getField fs "subtype" with
  | some (Json.str "init") =>
    match reqField fs "session_id" asStr, reqField fs "tools" asArr,
          reqField fs "mcp_servers" asArr with
    | some sid, some toolsJ, some serversJ =>
      match validateList asStr toolsJ, validateList validateMcpServer serversJ,
            optField fs "model" asStr, optField fs "cwd" asStr with
      | some tools, some _, some _, some _ => some (CMsg.systemInit sid tools)
      | _, _, _, _ => none
    | _, _, _ => none
  | _ => none

/-- Validation against `AssistantMessageSchema`. -/
def validateAssistant (fs : List (String × Json)) : Option CMsg :=
  match reqField fs "message" validateContentBlock,
        reqField fs "session_id" asStr with
  | some content, some sid => some (CMsg.assistant content sid)
  | _, _ => none

/-- Validation against `ToolUseResultDataSchema` (optional on user
messages). -/
def validateToolUseResultData (j : Json) : Option Unit :=
  match asObj j with
  | none => none
  | some fs =>
    match reqField fs "tool_name" asStr, reqField fs "tool_use_id" asStr,
          optField fs "is_error" asBool with
    | some _, some _, some _ => some ()
    | _, _, _ => none

/-- Validation against `UserMessageSchema`. -/
def validateUser (fs : List (String × Json)) : Option CMsg :=
  match reqField fs "message" validateContentBlock,
        reqField fs "session_id" asStr,
        optField fs "tool_use_result" validateToolUseResultData with
  | some content, some sid, some _ => some (CMsg.user content sid)
  | _, _, _ => none

/-- Validation against the legacy flat `ToolUseMessageSchema`. -/
def validateToolUseFlat (fs : List (String × Json)) : Option CMsg :=
  match reqField fs "tool_name" asStr, reqField fs "tool_input" asObj,
        reqField fs "session_id" asStr with
  | some n, some inp, some sid => some (CMsg.toolUseFlat n inp sid)
  | _, _, _ => none

/-- Validation against the legacy flat `ToolResultMessageSchema`. -/
def validateToolResultFlat (fs : List (String × Json)) : Option CMsg :=
  match reqField fs "tool_name" asStr, reqField fs "tool_result" asStr,
        reqField fs "is_error" asBool, reqField fs "session_id" asStr with
  | some n, some r, some ie, some sid => some (CMsg.toolResultFlat n r ie sid)
  | _, _, _, _ => none

/-- Validation against `ResultMessageSchema`. -/
def validateResult (fs : List (String × Json)) : Option CMsg :=
  match reqField fs "subtype" asStr, reqField fs "session_id" asStr with
  | some st, some sid =>
    match rSubtypeOf st with
    | none => none
    | some subtype =>
      match optField fs "result" asStr, optField fs "is_error" asBool,
            optField fs "total_cost_usd" asNum, optField fs "duration_ms" asNum,
            optField fs "duration_api_ms" asNum, optField fs "num_turns" asNum with
      | some res, some ie, some cost, some dur, some _, some _ =>
        match optField fs "usage" validateResultUsage,
              optField fs "modelUsage" validateModelUsage with
        | some _, some _ =>
          some (CMsg.result ⟨subtype, sid, res, ie, cost, dur⟩)
        | _, _ => none
      | _, _, _, _, _, _ => none
  | _, _ => none

/-- Validation against the discriminated union `ClaudeMessageSchema`, i.e.
`parseClaudeMessage` of `src/types/claude.ts`: the `type` field selects the
schema; a non-object, a missing/non-string `type`, or an unknown `type`
literal fails. -/
def validateClaudeMessage (j : Json) : Option CMsg :=
  match asObj j with
  | none => none
  | some fs =>
    match getField fs "type" with
    | some (Json.str t) =>
      if t = "system" then validateSystemInit fs
      else if t = "assistant" then validateAssistant fs
      else if t = "user" then validateUser fs
      else if t = "tool_use" then validateToolUseFlat fs
      else if t = "tool_result" then validateToolResultFlat fs
      else if t = "result" then validateResult fs
      else none
    | _ => none

/-- Events emitted by the dispatcher (`MessageParser.dispatch`): the
`system_init`, `tool_use`, `assistant`, `tool_result` and `result` events of
the event-emitter parser variant. -/
inductive AgentEvent where
  | init (sessionId : String) : AgentEvent
  | toolInvocation (id name : String) (input : List (String × Json)) : AgentEvent
  | assistantText (content : List Content) (sessionId : String) : AgentEvent
  | toolOutcome (content : List Content) (sessionId : String) : AgentEvent
  | completion (r : ResultMsg) : AgentEvent

/-- The `tool_use` extraction loop of the assistant case of
`MessageParser.dispatch`: one `tool_use` event per tool-use content block, in
array order. -/
def toolUseEvents : List Content → List AgentEvent
  | [] => []
  | Content.toolUse i n inp :: rest => AgentEvent.toolInvocation i n inp :: toolUseEvents rest
  | _ :: rest => toolUseEvents rest

/-- JavaScript whitespace trimmed by `String.prototype.trim` (the ASCII part;
the model restricts itself to these characters). -/
def isJsWs (c : Char) : Bool :=
  c = ' ' || c = '\t' || c = '\n' || c = '\r' ||
  c = Char.ofNat 11 || c = Char.ofNat 12

/-- Truthiness of `s.trim()`: the string has some non-whitespace character. -/
def hasNonWs (s : String) : Bool :=
  s.data.any fun c => !(isJsWs c)

/-- The `hasText` test of the assistant case:
`contents.some(c => c.type === 'text' && c.text.trim())`. -/
def hasTextContent (contents : List Content) : Bool :=
  contents.any fun c =>
    match c with
    | Content.text s => hasNonWs s
    | _ => false

/-- `MessageParser.dispatch` on a validated message: `system` (init) emits
the init event; `assistant` emits one `tool_use` event per tool-use block and
then the assistant event when some text block is non-whitespace; `user` emits
the tool-result event; `result` emits the result event.  The legacy flat
`tool_use`/`tool_result` message types reach no case of the switch statement
and emit nothing. -/
def dispatch : CMsg → List AgentEvent
  | CMsg.systemInit sid _ => [AgentEvent.init sid]
  | CMsg.assistant content sid =>
    toolUseEvents content ++
      (if hasTextContent content then [AgentEvent.assistantText content sid] else [])
  | CMsg.user content sid => [AgentEvent.toolOutcome content sid]
  | CMsg.toolUseFlat _ _ _ => []
  | CMsg.toolResultFlat _ _ _ _ => []
  | CMsg.result r => [AgentEvent.completion r]

/-- Diagnostics of the line pipeline: a schema mismatch is reported to the
logger (`log.warn '[parser] Invalid message shape'`) and processing
continues. -/
inductive Diag where
  | schemaMismatch (j : Json) : Diag

/-- Dispatch of one successfully decoded JSON value, as in the event-emitter
`processLine`: a failed schema validation yields a diagnostic and no events;
a successful one yields the dispatched events. -/
def dispatchJson (j : Json) : List AgentEvent × List Diag :=
  match validateClaudeMessage j with
  | none => ([], [Diag.schemaMismatch j])
  | some m => (dispatch m, [])

/-- `MessageParser.processLine` of the event-emitter variant: a line that is
not valid JSON raises `SyntaxError`, which is silently swallowed (no events,
no diagnostics); a valid JSON line is validated and dispatched. -/
def processLineOut (l : List Char) : List AgentEvent × List Diag :=
  match jsonParse l with
  | none => ([], [])
  | some j => dispatchJson j

/-- Process a sequence of lines in order, concatenating events and
diagnostics. -/
def runLines : List (List Char) → List AgentEvent × List Diag
  | [] => ([], [])
  | l :: rest =>
    let out := processLineOut l
    let r := runLines rest
    (out.1 ++ r.1, out.2 ++ r.2)

/-- Split a text into its complete lines and the trailing incomplete
fragment, as `buffer.split('\n')` followed by popping the last element does
in `MessageParser.feed`. -/
def splitLines : List Char → List (List Char) × List Char
  | [] => ([], [])
  | c :: rest =>
    let p := splitLines rest
    if c = '\n' then ([] :: p.1, p.2)
    else
      match p.1 with
      | [] => ([], c :: p.2)
      | l :: ls => ((c :: l) :: ls, p.2)

/-- Truthiness of `line.trim()` on a list of characters. -/
def nonBlank (l : List Char) : Bool :=
  l.any fun c => !(isJsWs c)

/-- `MessageParser.feed`: append the chunk to the buffer, keep the final
(possibly incomplete) fragment as the new buffer, and hand over every
complete non-blank line for processing, in order. -/
def feedLines (buf chunk : List Char) : List Char × List (List Char) :=
  let p := splitLines (buf ++ chunk)
  (p.2, p.1.filter nonBlank)

/-- Feed a sequence of chunks through the parser from a given buffer,
collecting all processed lines in order. -/
def runChunks (buf : List Char) : List (List Char) → List Char × List (List Char)
  | [] => (buf, [])
  | c :: cs =>
    let p := feedLines buf c
    let q := runChunks p.1 cs
    (q.1, p.2 ++ q.2)

/-- `MessageParser.flush`: process the remaining buffer once if it is
non-blank. -/
def flushLines (buf : List Char) : List (List Char) :=
  if nonBlank buf then [buf] else []

/-- All lines processed by a full run: feed every chunk starting from the
empty buffer, then flush exactly once. -/
def streamLines (chunks : List (List Char)) : List (List Char) :=
  let p := runChunks [] chunks
  p.2 ++ flushLines p.1

/-- Events and diagnostics of a full run over a chunked stream. -/
def streamOut (chunks : List (List Char)) : List AgentEvent × List Diag :=
  runLines (streamLines chunks)

/-- First-match association lookup, as `Map.get` (keys of a JS `Map` are
unique). -/
def mapGet (l : List (String × α)) (id : String) : Option α :=
  match l with
  | [] => none
  | p :: t => if p.1 = id then some p.2 else mapGet t id

/-- `Map.set`: replace the value at an existing key, else append a new
binding. -/
def mapSet (l : List (String × α)) (id : String) (v : α) : List (String × α) :=
  match l with
  | [] => [(id, v)]
  | p :: t => if p.1 = id then (p.1, v) :: t else p :: mapSet t id v

/-- `Map.delete`: remove the binding of a key. -/
def mapDelete (l : List (String × α)) (id : String) : List (String × α) :=
  match l with
  | [] => []
  | p :: t => if p.1 = id then t else p :: mapDelete t id

/-- State of the `AsyncMutex` of `process-manager.ts`: the `locked` flag and
the FIFO wait queue (waiters modelled by tokens). -/
structure MutexState where
  locked : Bool
  waitQueue : List Nat
deriving DecidableEq

/-- State of the `ProcessManager`: the `running` registry (process handles
modelled as numeric identifiers), the lock map, the per-id message queues,
and a log of the handles that were killed (the effect of `proc.kill()`). -/
structure PMState where
  running : List (String × Nat)
  locks : List (String × MutexState)
  queues : List (String × List String)
  killed : List Nat

/-- `ProcessManager.start`: kill an existing process registered under the
same id, then register the new handle (kill-and-replace). -/
def pmStart (s : PMState) (id : String) (proc : Nat) : PMState :=
  match mapGet s.running id with
  | some existing =>
    { s with running := mapSet s.running id proc, killed := existing :: s.killed }
  | none => { s with running := mapSet s.running id proc }

/-- `ProcessManager.stop`: if no process is registered under the id, return
`false` and leave the state untouched; otherwise kill it, drop the registry
entry and return `true`. -/
def pmStop (s : PMState) (id : String) : Bool × PMState :=
  match mapGet s.running id with
  | none => (false, s)
  | some proc =>
    (true, { s with running := mapDelete s.running id, killed := proc :: s.killed })

/-- `ProcessManager.isRunning`. -/
def pmIsRunning (s : PMState) (id : String) : Bool :=
  (mapGet s.running id).isSome

/-- `ProcessManager.remove`: drop the registry entry without killing. -/
def pmRemove (s : PMState) (id : String) : PMState :=
  { s with running := mapDelete s.running id }

/-- `ProcessManager.enqueue`: append the content to the id's queue (created
empty on first use). -/
def pmEnqueue (s : PMState) (id content : String) : PMState :=
  let queue := (mapGet s.queues id).getD []
  { s with queues := mapSet s.queues id (queue ++ [content]) }

/-- `ProcessManager.dequeue`: pop the oldest entry of the id's queue, or
return nothing if the queue is missing or empty. -/
def pmDequeue (s : PMState) (id : String) : Option String × PMState :=
  match mapGet s.queues id with
  | none => (none, s)
  | some [] => (none, s)
  | some (c :: rest) => (some c, { s with queues := mapSet s.queues id rest })

/-- The queue of a session as a list, oldest first. -/
def queueOf (s : PMState) (id : String) : List String :=
  (mapGet s.queues id).getD []

/-- An enqueue or dequeue call in an interleaving of queue operations. -/
inductive QOp where
  | enq (id content : String) : QOp
  | deq (id : String) : QOp

/-- Run a sequence of queue operations, collecting each dequeue's result
tagged with its session id. -/
def runOps (s : PMState) : List QOp → PMState × List (String × Option String)
  | [] => (s, [])
  | QOp.enq id c :: rest => runOps (pmEnqueue s id c) rest
  | QOp.deq id :: rest =>
    let p := pmDequeue s id
    let q := runOps p.2 rest
    (q.1, (id, p.1) :: q.2)

/-- The successful dequeue results for one session id, in order. -/
def deqOutputsFor (id : String) (outs : List (String × Option String)) : List String :=
  outs.filterMap fun p => if p.1 = id then p.2 else none

/-- The contents enqueued for one session id by a sequence of operations, in
order. -/
def enqueuedFor (id : String) : List QOp → List String
  | [] => []
  | QOp.enq i c :: rest =>
    if i = id then c :: enqueuedFor id rest else enqueuedFor id rest
  | QOp.deq _ :: rest => enqueuedFor id rest

/-- The session id an operation addresses. -/
def qopId : QOp → String
  | QOp.enq i _ => i
  | QOp.deq i => i

/-- `RunOptions` of `claude-runner.ts` (the fields `buildArgs` reads; the
timeout and working directory play no role in argument construction). -/
structure RunOptions where
  id : String
  cwd : String
  prompt : String
  resume : Option String
  continueConversation : Bool
  model : Option String
deriving DecidableEq

/-- The CLI argument list built by `runClaude`: the base flags, then
`--continue` when `continue` is set, else `--resume <token>` when `resume` is
set, then `--model <model>` when `model` is set. -/
def buildArgs (o : RunOptions) : List String :=
  ["-p", o.prompt, "--output-format", "stream-json", "--verbose",
   "--dangerously-skip-permissions"]
  ++ (if o.continueConversation then ["--continue"]
      else
        match o.resume with
        | some r => ["--resume", r]
        | none => [])
  ++ (match o.model with
      | some m => ["--model", m]
      | none => [])

/-- `RunResult` of `claude-runner.ts`. -/
structure RunResult where
  success : Bool
  sessionId : Option String
  error : Option String
  costUsd : Option JNumber
  durationMs : Option JNumber
deriving DecidableEq

/-- Result derivation of `runClaude` after the process has exited: with a
non-zero exit code and no observed result message the run fails with the
captured stderr (or a generic exit-code message when stderr is empty);
otherwise success is exactly a result message with subtype `success`, cost
and duration are propagated, and the error text is the result text exactly
when the result's `is_error` flag is true. -/
def deriveRunResult (exitCode : Int) (stderr : String) (sessionId : Option String)
    (result : Option ResultMsg) : RunResult :=
  if exitCode ≠ 0 ∧ result = none then
    { success := false
      sessionId := sessionId
      error := some (if stderr = "" then "Process exited with code " ++ toString exitCode
                     else stderr)
      costUsd := none
      durationMs := none }
  else
    { success := match result with
                 | some r => r.subtype = RSubtype.success
                 | none => false
      sessionId := sessionId
      error := match result with
               | some r => if r.isError = some true then r.result else none
               | none => none
      costUsd := result.bind ResultMsg.totalCostUsd
      durationMs := result.bind ResultMsg.durationMs }

/-- Spec-side view of one content item: the tool-invocation event it gives
rise to, if it is a tool-use block. -/
def invocationOf : Content → Option AgentEvent
  | Content.toolUse i n inp => some (AgentEvent.toolInvocation i n inp)
  | _ => none

/-- Spec-side predicate: a content item that is a text block with some
non-whitespace character. -/
def isNonWsText : Content → Bool
  | Content.text s => hasNonWs s
  | _ => false

/-- A concrete line carrying a legacy flat `tool_use` message. -/
def flatToolUseLine : List Char :=
  "\x7b\"type\":\"tool_use\",\"tool_name\":\"Bash\",\"tool_input\":\x7b\x7d,\"session_id\":\"s1\"\x7d".data

/-- The JSON value `JSON.parse` yields on `flatToolUseLine`. -/
def flatToolUseJson : Json :=
  Json.obj [("type", Json.str "tool_use"), ("tool_name", Json.str "Bash"),
            ("tool_input", Json.obj []), ("session_id", Json.str "s1")]

/-- A concrete line that is valid JSON but matches no recognized message
shape. -/
def bogusTypeLine : List Char := "\x7b\"type\":\"bogus\"\x7d".data

/-- The JSON value `JSON.parse` yields on `bogusTypeLine`. -/
def bogusTypeJson : Json := Json.obj [("type", Json.str "bogus")]

/-- A concrete line that is not valid JSON (subprocess progress chatter). -/
def noiseLine : List Char := "Working on it...".data

/-- A concrete successful result message used in witnesses. -/
def sampleResult : ResultMsg :=
  { subtype := RSubtype.success
    sessionId := "abc"
    result := some "done"
    isError := none
    totalCostUsd := some ⟨5, -2⟩
    durationMs := some ⟨1234, 0⟩ }

/-- A concrete process-manager state with one registered process. -/
def sampleState : PMState :=
  { running := [("a", 1)], locks := [], queues := [], killed := [] }

/-- A concrete interleaving of queue operations on one session. -/
def sampleOps : List QOp :=
  [QOp.enq "a" "x", QOp.enq "a" "y", QOp.deq "a", QOp.enq "a" "z", QOp.deq "a"]

/-- The tool-use extraction loop yields exactly the tool-invocation events of
the tool-use content blocks, in array order. -/
theorem toolUseEvents_eq_filterMap (l : List Content) :
    toolUseEvents l = l.filterMap invocationOf := by
  induction l with
  | nil => rfl
  | cons c rest ih =>
    cases c <;> simp [toolUseEvents, List.filterMap_cons, invocationOf, ih]

/-- C1.  For every assistant message dispatched by the stream dispatcher, one
tool-invocation event is emitted per tool-use content item, in the content
array's order, all preceding at most one assistant-text event, which is
emitted exactly when some text content item has non-whitespace text.  In
particular a message with content `[tool_use, tool_use, text]` yields exactly
the two tool invocations in order followed by the assistant-text event, and a
message with only whitespace text and no tool-use items yields no events. -/
theorem assistant_dispatch_shape :
    (∀ (content : List Content) (sid : String),
      dispatch (CMsg.assistant content sid) =
        content.filterMap invocationOf ++
          (if content.any isNonWsText then [AgentEvent.assistantText content sid]
           else [])) ∧
    dispatch (CMsg.assistant
        [Content.toolUse "t1" "Bash" [], Content.toolUse "t2" "Read" [],
         Content.text "hello"] "s") =
      [AgentEvent.toolInvocation "t1" "Bash" [],
       AgentEvent.toolInvocation "t2" "Read" [],
       AgentEvent.assistantText
         [Content.toolUse "t1" "Bash" [], Content.toolUse "t2" "Read" [],
          Content.text "hello"] "s"] ∧
    dispatch (CMsg.assistant [Content.text "  \t "] "s") = [] := by
  refine ⟨fun content sid => ?_, rfl, rfl⟩
  have hany : hasTextContent content = content.any isNonWsText := by
    unfold hasTextContent isNonWsText
    rfl
  simp only [dispatch, toolUseEvents_eq_filterMap, hany]

/-- Splitting a concatenation into lines: the complete lines of `a` come
first, and the remainder of `a` is prepended to `b` for the rest. -/
theorem splitLines_append (a b : List Char) :
    splitLines (a ++ b) =
      ((splitLines a).1 ++ (splitLines ((splitLines a).2 ++ b)).1,
       (splitLines ((splitLines a).2 ++ b)).2) := by
  induction a with
  | nil => simp [splitLines]
  | cons c t ih =>
    by_cases hc : c = '\n'
    · subst hc
      simp [splitLines, ih]
    · show splitLines (c :: (t ++ b)) = _
      rw [splitLines, ih]
      rcases h1 : (splitLines t).1 with _ | ⟨l, ls⟩
      · simp only [splitLines, h1, if_neg hc, List.nil_append]
        rcases h2 : (splitLines ((splitLines t).2 ++ b)).1 with _ | ⟨m, ms⟩ <;>
          simp [splitLines, h1, h2, if_neg hc]
      · simp [splitLines, h1, if_neg hc]

/-- Feeding a chunk split in two produces the same processed lines (in
order) and the same final buffer as feeding it whole. -/
theorem feedLines_split (buf c1 c2 : List Char) :
    feedLines buf (c1 ++ c2) =
      ((feedLines (feedLines buf c1).1 c2).1,
       (feedLines buf c1).2 ++ (feedLines (feedLines buf c1).1 c2).2) := by
  unfold feedLines
  rw [← List.append_assoc, splitLines_append (buf ++ c1) c2]
  simp [List.filter_append]

/-- C3.  Chunk-boundary invariance: for every input text and every offset,
feeding the text split at that offset across two `feed` calls followed by one
flush processes the identical line sequence — and hence produces the
identical event and diagnostic sequences — as feeding it unsplit followed by
one flush. -/
theorem chunk_boundary_invariance (text : List Char) (i : Nat) :
    streamLines [text.take i, text.drop i] = streamLines [text] ∧
    streamOut [text.take i, text.drop i] = streamOut [text] := by
  have hlines : streamLines [text.take i, text.drop i] = streamLines [text] := by
    unfold streamLines runChunks
    have := feedLines_split [] (text.take i) (text.drop i)
    rw [List.take_append_drop] at this
    rw [this]
    simp [runChunks]
  exact ⟨hlines, by unfold streamOut; rw [hlines]⟩

/-- Processing a concatenation of line sequences concatenates events and
diagnostics. -/
theorem runLines_append (a b : List (List Char)) :
    runLines (a ++ b) =
      ((runLines a).1 ++ (runLines b).1, (runLines a).2 ++ (runLines b).2) := by
  induction a with
  | nil => simp [runLines]
  | cons l rest ih => simp [runLines, ih]

/-- C4.  A line that is not valid JSON invokes no handler at all — neither an
event nor the error/diagnostic channel — and every other line of the stream
is processed exactly as if the invalid line were absent. -/
theorem invalid_json_line_skipped (l : List Char) (h : jsonParse l = none) :
    processLineOut l = ([], []) ∧
    ∀ pre post : List (List Char),
      runLines (pre ++ l :: post) = runLines (pre ++ post) := by
  have hskip : processLineOut l = ([], []) := by
    unfold processLineOut
    rw [h]
  refine ⟨hskip, fun pre post => ?_⟩
  rw [runLines_append, runLines_append]
  show ((runLines pre).1 ++ (runLines (l :: post)).1,
        (runLines pre).2 ++ (runLines (l :: post)).2) = _
  rw [show runLines (l :: post) =
        ((processLineOut l).1 ++ (runLines post).1,
         (processLineOut l).2 ++ (runLines post).2) from rfl, hskip]
  simp

/-- C4 witness: a concrete noise line is skipped silently and leaves the
surrounding lines' processing unchanged. -/
theorem invalid_json_line_skipped_witness :
    processLineOut noiseLine = ([], []) ∧
    runLines ([bogusTypeLine] ++ noiseLine :: [flatToolUseLine]) =
      runLines ([bogusTypeLine] ++ [flatToolUseLine]) :=
  ⟨(invalid_json_line_skipped noiseLine rfl).1,
   (invalid_json_line_skipped noiseLine rfl).2 [bogusTypeLine] [flatToolUseLine]⟩

/-- C6.  A line that is valid JSON but matches no recognized message shape is
reported to the diagnostic channel (the parser's warning log) and the stream
continues: it contributes no events, and every other line is processed
exactly as if it were absent, with the mismatch diagnostic interleaved in
order. -/
theorem schema_mismatch_reported (l : List Char) (j : Json)
    (h1 : jsonParse l = some j) (h2 : validateClaudeMessage j = none) :
    processLineOut l = ([], [Diag.schemaMismatch j]) ∧
    ∀ pre post : List (List Char),
      (runLines (pre ++ l :: post)).1 = (runLines (pre ++ post)).1 ∧
      (runLines (pre ++ l :: post)).2 =
        (runLines pre).2 ++ Diag.schemaMismatch j :: (runLines post).2 := by
  have hline : processLineOut l = ([], [Diag.schemaMismatch j]) := by
    unfold processLineOut
    rw [h1]
    show dispatchJson j = _
    unfold dispatchJson
    rw [h2]
  refine ⟨hline, fun pre post => ?_⟩
  rw [runLines_append, runLines_append]
  show ((runLines pre).1 ++ (runLines (l :: post)).1, _).1 = _ ∧ _
  rw [show runLines (l :: post) =
        ((processLineOut l).1 ++ (runLines post).1,
         (processLineOut l).2 ++ (runLines post).2) from rfl, hline]
  simp

/-- C6 witness: a concrete unrecognized-shape line yields exactly the
mismatch diagnostic and does not disturb the neighbouring lines' events. -/
theorem schema_mismatch_reported_witness :
    processLineOut bogusTypeLine = ([], [Diag.schemaMismatch bogusTypeJson]) ∧
    (runLines ([flatToolUseLine] ++ bogusTypeLine :: [noiseLine])).1 =
      (runLines ([flatToolUseLine] ++ [noiseLine])).1 :=
  ⟨(schema_mismatch_reported bogusTypeLine bogusTypeJson rfl rfl).1,
   ((schema_mismatch_reported bogusTypeLine bogusTypeJson rfl rfl).2
      [flatToolUseLine] [noiseLine]).1⟩

/-- C5 counterexample.  A concrete line carrying a legacy flat `tool_use`
message is valid JSON, is accepted by the schema union, yet the dispatcher
emits no event at all for it — in particular no tool-invocation event —
contradicting the claim that the flat shapes map to the same events as the
content-array forms. -/
theorem flat_tool_use_not_dispatched :
    jsonParse flatToolUseLine = some flatToolUseJson ∧
    validateClaudeMessage flatToolUseJson = some (CMsg.toolUseFlat "Bash" [] "s1") ∧
    processLineOut flatToolUseLine = ([], []) :=
  ⟨rfl, rfl, rfl⟩

/-- C5 amended.  A line whose JSON validates as a legacy flat `tool_use` or
`tool_result` message is accepted by the schema validation (so no
schema-mismatch diagnostic is reported), but the dispatcher's switch has no
case for these message types: no event is emitted and the message is silently
ignored. -/
theorem flat_shapes_validate_but_emit_nothing (j : Json) (m : CMsg)
    (h1 : validateClaudeMessage j = some m)
    (h2 : (∃ n inp sid, m = CMsg.toolUseFlat n inp sid) ∨
          (∃ n r ie sid, m = CMsg.toolResultFlat n r ie sid)) :
    dispatchJson j = ([], []) := by
  unfold dispatchJson
  rw [h1]
  rcases h2 with ⟨n, inp, sid, rfl⟩ | ⟨n, r, ie, sid, rfl⟩ <;> rfl

/-- C5 amended witness: the concrete flat tool-use value is validated and
dispatched to nothing. -/
theorem flat_shapes_validate_but_emit_nothing_witness :
    dispatchJson flatToolUseJson = ([], []) :=
  flat_shapes_validate_but_emit_nothing flatToolUseJson
    (CMsg.toolUseFlat "Bash" [] "s1") rfl (Or.inl ⟨"Bash", [], "s1", rfl⟩)

/-- C2.  The runner's result derivation: a non-zero exit with no observed
result message fails with the captured stderr (or the generic exit-code
message when stderr is empty); otherwise, with a result message observed,
success is exactly subtype `success`, cost and duration are propagated, and
the error text is the result text exactly when `is_error` is true. -/
theorem run_result_derivation (exitCode : Int) (stderr : String)
    (sid : Option String) (res : Option ResultMsg) :
    (exitCode ≠ 0 → res = none →
      deriveRunResult exitCode stderr sid res =
        { success := false
          sessionId := sid
          error := some (if stderr = "" then
                           "Process exited with code " ++ toString exitCode
                         else stderr)
          costUsd := none
          durationMs := none }) ∧
    (∀ r, res = some r →
      deriveRunResult exitCode stderr sid res =
        { success := decide (r.subtype = RSubtype.success)
          sessionId := sid
          error := if r.isError = some true then r.result else none
          costUsd := r.totalCostUsd
          durationMs := r.durationMs }) := by
  constructor
  · intro hne hnone
    subst hnone
    simp [deriveRunResult, hne]
  · intro r hres
    subst hres
    simp [deriveRunResult, Option.bind]

/-- C2 witness: the two branches at concrete inputs — exit code 1 with no
result and empty stderr, and exit code 0 with a successful result. -/
theorem run_result_derivation_witness :
    deriveRunResult 1 "" none none =
      { success := false
        sessionId := none
        error := some "Process exited with code 1"
        costUsd := none
        durationMs := none } ∧
    deriveRunResult 0 "" (some "abc") (some sampleResult) =
      { success := true
        sessionId := some "abc"
        error := none
        costUsd := some ⟨5, -2⟩
        durationMs := some ⟨1234, 0⟩ } :=
  ⟨(run_result_derivation 1 "" none none).1 (by decide) rfl,
   (run_result_derivation 0 "" (some "abc") (some sampleResult)).2 sampleResult rfl⟩

/-- C10.  When the subprocess exits with code zero and no result message was
observed, the run is a failure with no error text, no cost and no duration —
not a success and not the stderr-carrying failure shape of non-zero exits. -/
theorem zero_exit_without_completion (stderr : String) (sid : Option String) :
    deriveRunResult 0 stderr sid none =
      { success := false
        sessionId := sid
        error := none
        costUsd := none
        durationMs := none } := by
  simp [deriveRunResult, Option.bind]

/-- C7.  The argument list built by the runner contains the continue flag
exactly when `continue` is set, contains the resume flag exactly when
`continue` is unset and a resume token is present, and never contains both —
continue takes precedence when both intents are set.  (The hypotheses rule
out the degenerate case of flag-like strings appearing as the prompt, token
or model payloads.) -/
theorem resume_continue_flags_exclusive (o : RunOptions)
    (hp1 : o.prompt ≠ "--resume") (hp2 : o.prompt ≠ "--continue")
    (hr : ∀ r, o.resume = some r → r ≠ "--resume" ∧ r ≠ "--continue")
    (hm : ∀ m, o.model = some m → m ≠ "--resume" ∧ m ≠ "--continue") :
    ("--continue" ∈ buildArgs o ↔ o.continueConversation = true) ∧
    ("--resume" ∈ buildArgs o ↔
      (o.continueConversation = false ∧ o.resume ≠ none)) ∧
    ¬("--resume" ∈ buildArgs o ∧ "--continue" ∈ buildArgs o) := by
  obtain ⟨oid, ocwd, oprompt, ores, ocont, omod⟩ := o
  replace hp1 : oprompt ≠ "--resume" := hp1
  replace hp2 : oprompt ≠ "--continue" := hp2
  cases ocont <;> rcases ores with _ | r <;> rcases omod with _ | m
  · simp [buildArgs, Ne.symm hp1, Ne.symm hp2]
  · obtain ⟨hm1, hm2⟩ := hm m rfl
    simp [buildArgs, Ne.symm hp1, Ne.symm hp2, Ne.symm hm1, Ne.symm hm2]
  · obtain ⟨hr1, hr2⟩ := hr r rfl
    simp [buildArgs, Ne.symm hp1, Ne.symm hp2, Ne.symm hr1, Ne.symm hr2]
  · obtain ⟨hr1, hr2⟩ := hr r rfl
    obtain ⟨hm1, hm2⟩ := hm m rfl
    simp [buildArgs, Ne.symm hp1, Ne.symm hp2, Ne.symm hr1, Ne.symm hr2,
          Ne.symm hm1, Ne.symm hm2]
  · simp [buildArgs, Ne.symm hp1, Ne.symm hp2]
  · obtain ⟨hm1, hm2⟩ := hm m rfl
    simp [buildArgs, Ne.symm hp1, Ne.symm hp2, Ne.symm hm1, Ne.symm hm2]
  · obtain ⟨hr1, hr2⟩ := hr r rfl
    simp [buildArgs, Ne.symm hp1, Ne.symm hp2, Ne.symm hr1, Ne.symm hr2]
  · obtain ⟨hr1, hr2⟩ := hr r rfl
    obtain ⟨hm1, hm2⟩ := hm m rfl
    simp [buildArgs, Ne.symm hp1, Ne.symm hp2, Ne.symm hr1, Ne.symm hr2,
          Ne.symm hm1, Ne.symm hm2]

/-- C7 witness: with both a resume token and the continue intent set,
continue wins — the built argument list carries `--continue` and not
`--resume`. -/
theorem resume_continue_flags_exclusive_witness :
    ("--continue" ∈ buildArgs
        { id := "t", cwd := "/w", prompt := "hi", resume := some "tok123",
          continueConversation := true, model := none } ↔ true = true) ∧
    ¬("--resume" ∈ buildArgs
        { id := "t", cwd := "/w", prompt := "hi", resume := some "tok123",
          continueConversation := true, model := none } ∧
      "--continue" ∈ buildArgs
        { id := "t", cwd := "/w", prompt := "hi", resume := some "tok123",
          continueConversation := true, model := none }) :=
  ⟨(resume_continue_flags_exclusive _ (by decide) (by decide)
      (fun r h => by
        simp only [Option.some_inj] at h
        subst h
        exact ⟨by decide, by decide⟩)
      (fun m h => by simp at h)).1,
   (resume_continue_flags_exclusive _ (by decide) (by decide)
      (fun r h => by
        simp only [Option.some_inj] at h
        subst h
        exact ⟨by decide, by decide⟩)
      (fun m h => by simp at h)).2.2⟩

/-- A key absent from an association list looks up to nothing. -/
theorem mapGet_eq_none_of_not_mem (l : List (String × α)) (id : String)
    (h : id ∉ l.map Prod.fst) : mapGet l id = none := by
  induction l with
  | nil => rfl
  | cons p t ih =>
    simp only [List.map_cons, List.mem_cons] at h
    push_neg at h
    rw [mapGet, if_neg (fun he => h.1 he.symm)]
    exact ih h.2

/-- With unique keys, deleting a key removes its binding. -/
theorem mapGet_mapDelete_self (l : List (String × α)) (id : String)
    (h : (l.map Prod.fst).Nodup) : mapGet (mapDelete l id) id = none := by
  induction l with
  | nil => rfl
  | cons p t ih =>
    simp only [List.map_cons, List.nodup_cons] at h
    rw [mapDelete]
    by_cases hp : p.1 = id
    · rw [if_pos hp]
      exact mapGet_eq_none_of_not_mem t id (hp ▸ h.1)
    · rw [if_neg hp, mapGet, if_neg hp]
      exact ih h.2

/-- Setting a key makes it look up to the new value. -/
theorem mapGet_mapSet_self (l : List (String × α)) (id : String) (v : α) :
    mapGet (mapSet l id v) id = some v := by
  induction l with
  | nil => simp [mapSet, mapGet]
  | cons p t ih =>
    rw [mapSet]
    by_cases hp : p.1 = id
    · rw [if_pos hp, mapGet, if_pos hp]
    · rw [if_neg hp, mapGet, if_neg hp]
      exact ih

/-- Setting one key leaves every other key's lookup unchanged. -/
theorem mapGet_mapSet_ne (l : List (String × α)) (id id' : String) (v : α)
    (h : id' ≠ id) : mapGet (mapSet l id v) id' = mapGet l id' := by
  induction l with
  | nil =>
    simp only [mapSet, mapGet]
    rw [if_neg (fun he : id = id' => h he.symm)]
  | cons p t ih =>
    rw [mapSet]
    by_cases hp : p.1 = id
    · rw [if_pos hp, mapGet, mapGet]
      have : ¬p.1 = id' := fun he => h (he ▸ hp : id' = id)
      rw [if_neg this, if_neg this]
    · rw [if_neg hp, mapGet, mapGet]
      by_cases hq : p.1 = id'
      · rw [if_pos hq, if_pos hq]
      · rw [if_neg hq, if_neg hq]
        exact ih

/-- C8.  `stop` on an unregistered id returns `false` and leaves the whole
manager state (registry, locks, queues, kill log) unchanged; after `stop` on
a registered id the stop reports `true`, `isRunning` is `false`, and a
subsequent `start` with a fresh handle registers it (killing nothing) without
any prior `remove`. -/
theorem stop_semantics :
    (∀ (s : PMState) (id : String),
      mapGet s.running id = none → pmStop s id = (false, s)) ∧
    (∀ (s : PMState) (id : String) (h hnew : Nat),
      (s.running.map Prod.fst).Nodup → mapGet s.running id = some h →
      (pmStop s id).1 = true ∧
      pmIsRunning (pmStop s id).2 id = false ∧
      mapGet (pmStart (pmStop s id).2 id hnew).running id = some hnew ∧
      (pmStart (pmStop s id).2 id hnew).killed = h :: s.killed) := by
  constructor
  · intro s id hnone
    unfold pmStop
    rw [hnone]
  · intro s id h hnew hnd hsome
    have hstop : pmStop s id =
        (true, { s with running := mapDelete s.running id, killed := h :: s.killed }) := by
      unfold pmStop
      rw [hsome]
    have hdel : mapGet (mapDelete s.running id) id = none :=
      mapGet_mapDelete_self s.running id hnd
    refine ⟨by rw [hstop], ?_, ?_, ?_⟩
    · rw [hstop]
      unfold pmIsRunning
      rw [hdel]
      rfl
    · rw [hstop]
      unfold pmStart
      rw [hdel]
      exact mapGet_mapSet_self _ id hnew
    · rw [hstop]
      unfold pmStart
      rw [hdel]

/-- C8 witness: the two branches on a concrete one-process state. -/
theorem stop_semantics_witness :
    pmStop sampleState "b" = (false, sampleState) ∧
    ((pmStop sampleState "a").1 = true ∧
     pmIsRunning (pmStop sampleState "a").2 "a" = false ∧
     mapGet (pmStart (pmStop sampleState "a").2 "a" 2).running "a" = some 2 ∧
     (pmStart (pmStop sampleState "a").2 "a" 2).killed = 1 :: sampleState.killed) :=
  ⟨stop_semantics.1 sampleState "b" rfl,
   stop_semantics.2 sampleState "a" 1 2 (by decide) rfl⟩

/-- Enqueueing appends to the session's own queue. -/
theorem queueOf_pmEnqueue_self (s : PMState) (id c : String) :
    queueOf (pmEnqueue s id c) id = queueOf s id ++ [c] := by
  unfold queueOf pmEnqueue
  simp only
  rw [mapGet_mapSet_self]
  rfl

/-- Enqueueing leaves other sessions' queues unchanged. -/
theorem queueOf_pmEnqueue_ne (s : PMState) (i id c : String) (h : i ≠ id) :
    queueOf (pmEnqueue s i c) id = queueOf s id := by
  unfold queueOf pmEnqueue
  simp only
  rw [mapGet_mapSet_ne _ _ _ _ (Ne.symm h)]

/-- Dequeueing leaves other sessions' queues unchanged. -/
theorem queueOf_pmDequeue_ne (s : PMState) (i id : String) (h : i ≠ id) :
    queueOf (pmDequeue s i).2 id = queueOf s id := by
  unfold queueOf pmDequeue
  cases hq : mapGet s.queues i with
  | none => rfl
  | some q =>
    cases q with
    | nil => rfl
    | cons c tl =>
      simp only
      rw [mapGet_mapSet_ne _ _ _ _ (Ne.symm h)]

/-- Unfolding: an enqueue step. -/
theorem runOps_cons_enq (s : PMState) (i c : String) (rest : List QOp) :
    runOps s (QOp.enq i c :: rest) = runOps (pmEnqueue s i c) rest := rfl

/-- Unfolding: a dequeue step records its tagged result. -/
theorem runOps_cons_deq (s : PMState) (i : String) (rest : List QOp) :
    runOps s (QOp.deq i :: rest) =
      ((runOps (pmDequeue s i).2 rest).1,
       (i, (pmDequeue s i).1) :: (runOps (pmDequeue s i).2 rest).2) := rfl

/-- A dequeue result of the session itself that yielded nothing contributes
nothing. -/
theorem deqOutputsFor_cons_none (id : String) (outs : List (String × Option String)) :
    deqOutputsFor id ((id, none) :: outs) = deqOutputsFor id outs := by
  simp [deqOutputsFor]

/-- A successful dequeue result of the session itself contributes its
value. -/
theorem deqOutputsFor_cons_some (id c : String) (outs : List (String × Option String)) :
    deqOutputsFor id ((id, some c) :: outs) = c :: deqOutputsFor id outs := by
  simp [deqOutputsFor]

/-- A dequeue result of another session contributes nothing. -/
theorem deqOutputsFor_cons_ne (id i : String) (v : Option String)
    (outs : List (String × Option String)) (h : i ≠ id) :
    deqOutputsFor id ((i, v) :: outs) = deqOutputsFor id outs := by
  cases v <;> simp [deqOutputsFor, h]

/-- FIFO invariant of the per-session queues: over any interleaving of
enqueue and dequeue operations, the successful dequeue results for a session
followed by its final queue contents equal its initial queue contents
followed by everything enqueued for it, in order. -/
theorem runOps_fifo (ops : List QOp) : ∀ (s : PMState) (id : String),
    deqOutputsFor id (runOps s ops).2 ++ queueOf (runOps s ops).1 id =
      queueOf s id ++ enqueuedFor id ops := by
  induction ops with
  | nil =>
    intro s id
    simp [runOps, deqOutputsFor, enqueuedFor]
  | cons op rest ih =>
    intro s id
    cases op with
    | enq i c =>
      rw [runOps_cons_enq, ih (pmEnqueue s i c) id]
      by_cases hi : i = id
      · subst hi
        rw [queueOf_pmEnqueue_self]
        simp [enqueuedFor]
      · rw [queueOf_pmEnqueue_ne s i id c hi]
        simp [enqueuedFor, hi]
    | deq i =>
      rw [runOps_cons_deq]
      by_cases hi : i = id
      · subst hi
        rcases hq : mapGet s.queues i with _ | q
        · have hde : pmDequeue s i = (none, s) := by
            unfold pmDequeue
            rw [hq]
          rw [hde]
          simp only [deqOutputsFor_cons_none]
          rw [ih s i]
          simp [enqueuedFor]
        · cases q with
          | nil =>
            have hde : pmDequeue s i = (none, s) := by
              unfold pmDequeue
              rw [hq]
            rw [hde]
            simp only [deqOutputsFor_cons_none]
            rw [ih s i]
            simp [enqueuedFor]
          | cons c tl =>
            have hde : pmDequeue s i =
                (some c, { s with queues := mapSet s.queues i tl }) := by
              unfold pmDequeue
              rw [hq]
            rw [hde]
            simp only [deqOutputsFor_cons_some, List.cons_append]
            rw [ih { s with queues := mapSet s.queues i tl } i]
            have hq1 : queueOf { s with queues := mapSet s.queues i tl } i = tl := by
              unfold queueOf
              simp only
              rw [mapGet_mapSet_self]
              rfl
            have hq2 : queueOf s i = c :: tl := by
              unfold queueOf
              rw [hq]
              rfl
            rw [hq1, hq2]
            simp [enqueuedFor]
      · rw [deqOutputsFor_cons_ne id i _ _ hi, ih (pmDequeue s i).2 id,
            queueOf_pmDequeue_ne s i id hi]
        simp [enqueuedFor]

/-- Operations that never address a session leave its queue untouched and
dequeue nothing from it. -/
theorem runOps_untouched (ops : List QOp) : ∀ (s : PMState) (id : String),
    (∀ op ∈ ops, qopId op ≠ id) →
    queueOf (runOps s ops).1 id = queueOf s id ∧
    deqOutputsFor id (runOps s ops).2 = [] := by
  induction ops with
  | nil =>
    intro s id _
    exact ⟨rfl, rfl⟩
  | cons op rest ih =>
    intro s id hops
    have hop : qopId op ≠ id := hops op (List.mem_cons_self op rest)
    have hrest : ∀ op' ∈ rest, qopId op' ≠ id :=
      fun op' h' => hops op' (List.mem_cons_of_mem op h')
    cases op with
    | enq i c =>
      obtain ⟨h1, h2⟩ := ih (pmEnqueue s i c) id hrest
      rw [runOps_cons_enq]
      exact ⟨by rw [h1, queueOf_pmEnqueue_ne s i id c hop], h2⟩
    | deq i =>
      obtain ⟨h1, h2⟩ := ih (pmDequeue s i).2 id hrest
      rw [runOps_cons_deq]
      exact ⟨by rw [h1, queueOf_pmDequeue_ne s i id hop],
             by rw [deqOutputsFor_cons_ne id i _ _ hop, h2]⟩

/-- C9.  Per-session FIFO: over every interleaving of enqueue and dequeue
operations, the dequeues of a session return exactly its entries in enqueue
order (oldest first) — the dequeued values followed by the remaining queue
are the initial queue followed by the enqueued contents — and operations on
other session ids neither disturb a session's queue nor contribute to its
dequeue results. -/
theorem queue_fifo_order :
    (∀ (s : PMState) (ops : List QOp) (id : String),
      deqOutputsFor id (runOps s ops).2 ++ queueOf (runOps s ops).1 id =
        queueOf s id ++ enqueuedFor id ops) ∧
    (∀ (s : PMState) (ops : List QOp) (id : String),
      (∀ op ∈ ops, qopId op ≠ id) →
      queueOf (runOps s ops).1 id = queueOf s id ∧
      deqOutputsFor id (runOps s ops).2 = []) :=
  ⟨fun s ops id => runOps_fifo ops s id, fun s ops id h => runOps_untouched ops s id h⟩

/-- C9 witness: a concrete interleaving on session `a` dequeues in enqueue
order, and session `b` is unaffected by it. -/
theorem queue_fifo_order_witness :
    (deqOutputsFor "a" (runOps sampleState sampleOps).2 ++
       queueOf (runOps sampleState sampleOps).1 "a" =
     queueOf sampleState "a" ++ enqueuedFor "a" sampleOps) ∧
    (queueOf (runOps sampleState sampleOps).1 "b" = queueOf sampleState "b" ∧
     deqOutputsFor "b" (runOps sampleState sampleOps).2 = []) :=
  ⟨queue_fifo_order.1 sampleState sampleOps "a",
   queue_fifo_order.2 sampleState sampleOps "b" (by decide)⟩
